import Mathlib

/-!
Shallow embedding of `earthquake_fns.py` (eosc211 project 2): plate-boundary
grouping, column extraction with mixed-format time parsing, the range filter
`select_quake_subset`, and the two-point slope calculation `get_slope`.

Numbers in the catalogue (latitude, longitude, depth, magnitude) are modelled
as rationals; parsed time instants as rational seconds since the Unix epoch.
-/

namespace EqFns

/-- Error taxonomy of the Python code: `ValueError` is the named domain error
raised by `get_slope`; `parseError` stands for the exceptions `pd.to_datetime`
raises on an unparseable string. -/
inductive PyError where
  | valueError (msg : String)
  | parseError (msg : String)
deriving DecidableEq, Repr

/-! ### Time parsing

Models `pd.to_datetime(…, format='mixed')` on ISO-8601-like strings:
`YYYY-MM-DDTHH:MM:SS`, optionally followed by a fractional-second part
`.fff…` and optionally an offset `±HH:MM` (or `Z`).  The result is the
instant in seconds since 1970-01-01T00:00:00Z, offset-normalised to UTC
(naive strings are taken at offset zero). -/

/-- Numeric value of a digit character. -/
def digitVal (c : Char) : Nat := c.toNat - 48

/-- Value of a list of digit characters read in base 10. -/
def digitsVal (cs : List Char) : Nat :=
  cs.foldl (fun acc c => acc * 10 + digitVal c) 0

/-- Days from 1970-01-01 to the civil date y-m-d (Gregorian), the standard
`days_from_civil` computation used by date libraries. -/
def daysFromCivil (y m d : Int) : Int :=
  let y2 : Int := if m ≤ 2 then y - 1 else y
  let era : Int := (if 0 ≤ y2 then y2 else y2 - 399) / 400
  let yoe : Int := y2 - era * 400
  let mp : Int := (m + 9) % 12
  let doy : Int := (153 * mp + 2) / 5 + d - 1
  let doe : Int := yoe * 365 + yoe / 4 - yoe / 100 + doy
  era * 146097 + doe - 719468

/-- Parses an optional fractional-second suffix `.ddd…`; returns the fraction
in seconds and the remaining characters. -/
def parseFrac : List Char → Option (ℚ × List Char)
  | '.' :: cs =>
      let ds := cs.takeWhile Char.isDigit
      if ds.isEmpty then none
      else some (((digitsVal ds : ℚ) / ((10 : ℚ) ^ ds.length)), cs.dropWhile Char.isDigit)
  | cs => some (0, cs)

/-- Parses the optional UTC-offset suffix (empty, `Z`, or `±HH:MM`); returns
the offset in seconds. -/
def parseOffset : List Char → Option Int
  | [] => some 0
  | ['Z'] => some 0
  | '+' :: h1 :: h2 :: ':' :: m1 :: m2 :: [] =>
      if [h1, h2, m1, m2].all Char.isDigit then
        some ((digitsVal [h1, h2] : Int) * 3600 + (digitsVal [m1, m2] : Int) * 60)
      else none
  | '-' :: h1 :: h2 :: ':' :: m1 :: m2 :: [] =>
      if [h1, h2, m1, m2].all Char.isDigit then
        some (-((digitsVal [h1, h2] : Int) * 3600 + (digitsVal [m1, m2] : Int) * 60))
      else none
  | _ => none

/-- Parses an ISO-8601-like date-time string to an instant (seconds since the
Unix epoch, normalised to UTC), or `none` if the string matches no known
grammar. -/
def parseTimeString (s : String) : Option ℚ :=
  match s.toList with
  | y1 :: y2 :: y3 :: y4 :: '-' :: mo1 :: mo2 :: '-' :: d1 :: d2 :: 'T' ::
      h1 :: h2 :: ':' :: mi1 :: mi2 :: ':' :: s1 :: s2 :: rest =>
      if [y1, y2, y3, y4, mo1, mo2, d1, d2, h1, h2, mi1, mi2, s1, s2].all Char.isDigit then
        let year := digitsVal [y1, y2, y3, y4]
        let month := digitsVal [mo1, mo2]
        let day := digitsVal [d1, d2]
        let hour := digitsVal [h1, h2]
        let minute := digitsVal [mi1, mi2]
        let sec := digitsVal [s1, s2]
        if 1 ≤ month ∧ month ≤ 12 ∧ 1 ≤ day ∧ day ≤ 31 ∧ hour < 24 ∧ minute < 60 ∧ sec < 61 then
          match parseFrac rest with
          | none => none
          | some (frac, rest2) =>
              match parseOffset rest2 with
              | none => none
              | some off =>
                  some ((daysFromCivil year month day * 86400 : Int) +
                        (hour * 3600 + minute * 60 + sec : Nat) + frac - (off : ℚ))
        else none
      else none
  | _ => none

/-! ### The catalogue data model -/

/-- Value held in the `Time` cell of a catalogue row: either the raw string
loaded from the CSV, or a timestamp produced by `pd.to_datetime`. -/
inductive TimeCell where
  | raw (s : String)
  | stamp (t : ℚ)
deriving DecidableEq, Repr

/-- Behaviour of `pd.to_datetime` on a single cell: a timestamp passes
through, a string is parsed. -/
def toDatetime : TimeCell → Option ℚ
  | .raw s => parseTimeString s
  | .stamp t => some t

/-- One row of the earthquake catalogue: the five columns the code reads,
plus the passthrough columns (`extra`), kept as name/value pairs. -/
structure QuakeRow where
  latitude : ℚ
  longitude : ℚ
  depth : ℚ
  magnitude : ℚ
  time : TimeCell
  extra : List (String × String)
deriving DecidableEq, Repr

/-- A catalogue table: ordered rows. -/
abbrev Frame := List QuakeRow

/-- Effect of `df_sub['Time'] = pd.to_datetime(df_sub['Time'], format='mixed')`
on one row: the `Time` cell is replaced by its parsed instant, every other
cell is untouched; fails if the cell is unparseable. -/
def convertTimeRow (r : QuakeRow) : Option QuakeRow :=
  (toDatetime r.time).map fun t => { r with time := .stamp t }

/-- Element-wise traversal of a column, failing if any cell fails — the way
`pd.to_datetime` converts a whole column or raises. -/
def traverseOption (f : α → Option β) : List α → Option (List β)
  | [] => some []
  | a :: l =>
      match f a, traverseOption f l with
      | some b, some bs => some (b :: bs)
      | _, _ => none

/-- Boolean test `t_start <= Time <= t_end` on a converted row (after column
conversion every cell is a timestamp; a raw cell cannot satisfy the pandas
comparison). -/
def timeInRange (a b : ℚ) (r : QuakeRow) : Bool :=
  match r.time with
  | .stamp t => decide (a ≤ t ∧ t ≤ b)
  | .raw _ => false

/-- Inclusive bound test `lo <= v <= hi` on the column read by `sel`. -/
def fieldPred (sel : QuakeRow → ℚ) (lo hi : ℚ) (r : QuakeRow) : Bool :=
  decide (lo ≤ sel r ∧ sel r ≤ hi)

/-- Boolean test `lo <= Longitude <= hi` on a row. -/
def lonPred : ℚ → ℚ → QuakeRow → Bool := fieldPred (·.longitude)

/-- Boolean test `lo <= Latitude <= hi` on a row. -/
def latPred : ℚ → ℚ → QuakeRow → Bool := fieldPred (·.latitude)

/-- Boolean test `lo <= Depth <= hi` on a row. -/
def depthPred : ℚ → ℚ → QuakeRow → Bool := fieldPred (·.depth)

/-- Boolean test `lo <= Magnitude <= hi` on a row. -/
def magPred : ℚ → ℚ → QuakeRow → Bool := fieldPred (·.magnitude)

/-- One `if x is not None: df_sub = df_sub[mask]` block of
`select_quake_subset`: narrows the current subset when the range is
supplied, passes it through otherwise. -/
def optFilter (o : Option (ℚ × ℚ)) (p : ℚ → ℚ → QuakeRow → Bool) (l : Frame) : Frame :=
  match o with
  | none => l
  | some (a, b) => l.filter (p a b)

/-- The `if times is not None` block of `select_quake_subset`: converts the
whole `Time` column to timestamps (failing on any unparseable cell), converts
the two bounds, and keeps the rows in the inclusive time range; with no
`times` argument the table passes through unchanged. -/
def timeStep (df : Frame) (times : Option (TimeCell × TimeCell)) : Option Frame :=
  match times with
  | none => some df
  | some (t0, t1) =>
      match traverseOption convertTimeRow df, toDatetime t0, toDatetime t1 with
      | some conv, some tStart, some tEnd => some (conv.filter (timeInRange tStart tEnd))
      | _, _, _ => none

/-- Embedding of `select_quake_subset`: starts from a copy of the table, runs
the optional time block, then narrows by each further supplied range in the
source's order (lons, lats, depths, mags).  `none` models the call raising. -/
def select_quake_subset (df : Frame) (times : Option (TimeCell × TimeCell))
    (lons lats depths mags : Option (ℚ × ℚ)) : Option Frame :=
  match timeStep df times with
  | none => none
  | some df1 =>
      some (optFilter mags magPred (optFilter depths depthPred
        (optFilter lats latPred (optFilter lons lonPred df1))))

/-- Inclusive-range check of an optional numeric bound pair, following the
specification's words: with no bound supplied every value passes, otherwise
`lower <= v <= upper`. -/
def optCheck (o : Option (ℚ × ℚ)) (v : ℚ) : Bool :=
  match o with
  | none => true
  | some (a, b) => decide (a ≤ v ∧ v ≤ b)

/-- Inclusive-range check of the optional time bound pair on a `Time` cell,
following the specification's words: the bounds and the cell are parsed to
instants and compared inclusively. -/
def optTimeCheck (o : Option (TimeCell × TimeCell)) (c : TimeCell) : Bool :=
  match o with
  | none => true
  | some (t0, t1) =>
      match toDatetime t0, toDatetime t1, toDatetime c with
      | some a, some b, some t => decide (a ≤ t ∧ t ≤ b)
      | _, _, _ => false

/-- Spec-side conjunctive predicate (written from the specification, to be
compared with the sequential narrowing of `select_quake_subset`): a row
survives exactly when it satisfies every supplied range independently. -/
def rowSatSpec (times : Option (TimeCell × TimeCell))
    (lons lats depths mags : Option (ℚ × ℚ)) (r : QuakeRow) : Bool :=
  optTimeCheck times r.time && optCheck lons r.longitude && optCheck lats r.latitude &&
    optCheck depths r.depth && optCheck mags r.magnitude

/-- Image of a source row in the filter's output: unchanged when `times` is
not supplied, its `Time` cell converted to a timestamp when it is. -/
def rowImage (times : Option (TimeCell × TimeCell)) (r : QuakeRow) : Option QuakeRow :=
  match times with
  | none => some r
  | some _ => convertTimeRow r

/-! ### Plate boundaries (`get_plate_boundaries`) -/

/-- One row of the plate-boundary file: on-disk column order is
(name, latitude, longitude). -/
structure PlateRow where
  name : String
  lat : ℚ
  lon : ℚ
deriving DecidableEq, Repr

/-- First-seen-order list of distinct values, the order `pandas.unique`
returns: `uniqueAux seen l` drops the elements already in `seen`. -/
def uniqueAux (seen : List String) : List String → List String
  | [] => []
  | n :: rest => if n ∈ seen then uniqueAux seen rest else n :: uniqueAux (n :: seen) rest

/-- Embedding of `get_plate_boundaries`: for each distinct name (in
first-seen order), the sub-table of rows with that name, in file order, each
row emitted as the pair (longitude, latitude).  The dictionary is modelled as
an association list in key-insertion order. -/
def get_plate_boundaries (rows : List PlateRow) : List (String × List (ℚ × ℚ)) :=
  (uniqueAux [] (rows.map (·.name))).map fun n =>
    (n, (rows.filter fun r => decide (r.name = n)).map fun r => (r.lon, r.lat))

/-! ### Field extraction (`parse_earthquakes_to_np`) -/

/-- Embedding of `parse_earthquakes_to_np`: projects the five named columns
into parallel sequences, parsing the whole `Time` column to instants;
`none` models `pd.to_datetime` raising on an unparseable cell. -/
def parse_earthquakes_to_np (df : Frame) :
    Option (List ℚ × List ℚ × List ℚ × List ℚ × List ℚ) :=
  match traverseOption (fun r => toDatetime r.time) df with
  | none => none
  | some times =>
      some (df.map (·.latitude), df.map (·.longitude), df.map (·.depth),
            df.map (·.magnitude), times)

/-! ### Slope calculation (`get_slope`) -/

/-- Embedding of `get_slope`: rise over run, rejected with the code's
`ValueError` when `run = 0`, otherwise `np.degrees(np.arctan(slope))`,
that is `arctan (rise / run) * 180 / pi`. -/
noncomputable def get_slope (start_pt end_pt : ℚ × ℚ) : Except PyError ℝ :=
  let rise : ℚ := end_pt.2 - start_pt.2
  let run : ℚ := end_pt.1 - start_pt.1
  if run = 0 then
    .error (.valueError
      "Division by zero: The x-coordinates of the start and end points cannot be the same.")
  else .ok (Real.arctan ((rise / run : ℚ) : ℝ) * 180 / Real.pi)

/-! ### Single-range calls, for the commutation claim -/

/-- One of the five optional range arguments of `select_quake_subset`. -/
inductive RangeArg where
  | times (b : TimeCell × TimeCell)
  | lons (b : ℚ × ℚ)
  | lats (b : ℚ × ℚ)
  | depths (b : ℚ × ℚ)
  | mags (b : ℚ × ℚ)
deriving DecidableEq, Repr

/-- Whether the argument is the `times` range. -/
def RangeArg.isTimes : RangeArg → Bool
  | .times _ => true
  | _ => false

/-- Calling `select_quake_subset` with exactly one range argument supplied. -/
def applyOne (a : RangeArg) (df : Frame) : Option Frame :=
  match a with
  | .times b => select_quake_subset df (some b) none none none none
  | .lons b => select_quake_subset df none (some b) none none none
  | .lats b => select_quake_subset df none none (some b) none none
  | .depths b => select_quake_subset df none none none (some b) none
  | .mags b => select_quake_subset df none none none none (some b)

/-- Every `Time` cell of the table parses to an instant. -/
def allTimesParse (df : Frame) : Prop := ∀ r ∈ df, (toDatetime r.time).isSome

/-! ### Heap model of the filter, for the no-mutation claim

The pandas objects are modelled by a heap of frames addressed by position.
`df.copy()` and each boolean-mask selection `df_sub[mask]` allocate a fresh
frame; the column assignment `df_sub['Time'] = …` writes in place to the
frame `df_sub` currently names. -/

/-- The pandas object store: frames addressed by allocation order. -/
abbrev Heap := List Frame

/-- One optional narrowing step `df_sub = df_sub[mask]`: when the range is
supplied, a fresh frame holding the filtered rows is allocated and `df_sub`
rebinds to it; the step also carries the current frame's value. -/
def filterStepH (st : Heap) (r : Nat) (cur : Frame) (arg : Option (ℚ × ℚ))
    (p : ℚ → ℚ → QuakeRow → Bool) : Heap × Nat × Frame :=
  match arg with
  | none => (st, r, cur)
  | some (a, b) =>
      let f := cur.filter (p a b)
      (st ++ [f], st.length, f)

/-- The four numeric narrowing steps of `select_quake_subset`, applied after
the optional time step. -/
def numericStepsH (st : Heap) (r : Nat) (cur : Frame)
    (lons lats depths mags : Option (ℚ × ℚ)) : Heap × Nat :=
  let s1 := filterStepH st r cur lons lonPred
  let s2 := filterStepH s1.1 s1.2.1 s1.2.2 lats latPred
  let s3 := filterStepH s2.1 s2.2.1 s2.2.2 depths depthPred
  let s4 := filterStepH s3.1 s3.2.1 s3.2.2 mags magPred
  (s4.1, s4.2.1)

/-- Heap-level embedding of `select_quake_subset`: reads the argument frame,
allocates its copy (`df_sub = df.copy()`), runs the optional time step (an
in-place write of the converted `Time` column to the copy, then a fresh
filtered frame), then the numeric steps; returns the final heap and the
reference `df_sub` names at the end. -/
def select_quake_subset_heap (st : Heap) (dfRef : Nat)
    (times : Option (TimeCell × TimeCell))
    (lons lats depths mags : Option (ℚ × ℚ)) : Option (Heap × Nat) :=
  match st[dfRef]? with
  | none => none
  | some df =>
      let st1 := st ++ [df]
      let r1 := st.length
      match times with
      | none => some (numericStepsH st1 r1 df lons lats depths mags)
      | some (t0, t1) =>
          match traverseOption convertTimeRow df, toDatetime t0, toDatetime t1 with
          | some conv, some tStart, some tEnd =>
              let st2 := st1.set r1 conv
              let filtered := conv.filter (timeInRange tStart tEnd)
              let st3 := st2 ++ [filtered]
              some (numericStepsH st3 st2.length filtered lons lats depths mags)
          | _, _, _ => none

/-! ### Derived definitions and concrete example data -/

/-- Total version of the `Time` column conversion, meaningful on rows whose
cell parses. -/
def convD (r : QuakeRow) : QuakeRow := { r with time := .stamp ((toDatetime r.time).getD 0) }

def exPlates : List PlateRow := [⟨"A", 1, 2⟩, ⟨"B", 3, 4⟩, ⟨"A", 5, 6⟩]

/-- Two-row catalogue whose `Time` column mixes an offset-carrying string
with a naive one. -/
def exMixed : Frame :=
  [⟨10, 30, 50, 3, .raw "2000-10-31T01:30:00.000-05:00", []⟩,
   ⟨20, 40, 60, 4, .raw "2001-01-01T00:00:00", []⟩]

/-- A catalogue row whose `Time` cell is still the raw CSV string. -/
def exRowRaw : QuakeRow := ⟨1, 2, 3, 4, .raw "2001-01-01T00:00:00", [("Place", "somewhere")]⟩

/-- The same row after the `Time` column conversion. -/
def exRowConv : QuakeRow := ⟨1, 2, 3, 4, .stamp 978307200, [("Place", "somewhere")]⟩

/-- One-row catalogue used to exhibit the `Time`-conversion leak. -/
def exDfT : Frame := [exRowRaw]

/-- The row predicate of a single numeric range argument (`true` for the
time argument, whose step is not a plain row filter). -/
def predOf : RangeArg → QuakeRow → Bool
  | .times _ => fun _ => true
  | .lons b => lonPred b.1 b.2
  | .lats b => latPred b.1 b.2
  | .depths b => depthPred b.1 b.2
  | .mags b => magPred b.1 b.2

/-- A row whose `Time` string parses under no known grammar. -/
def exRowBad : QuakeRow := ⟨1, 200, 3, 4, .raw "garbage", []⟩

/-- A row with a parseable naive ISO time. -/
def exRowGood : QuakeRow := ⟨1, 10, 3, 4, .raw "2001-01-01T00:00:00", []⟩

/-- Table mixing the unparseable and the parseable row. -/
def exDfBad : Frame := [exRowBad, exRowGood]

/-! Batteries marks the rational-number operations irreducible; the concrete
evaluations below need them to unfold. -/

attribute [local semireducible] Rat.add Rat.sub Rat.mul Rat.inv

/-! ### Helper lemmas -/

theorem traverseOption_forall₂ {α β : Type} {f : α → Option β} :
    ∀ {l : List α} {l' : List β}, traverseOption f l = some l' →
      List.Forall₂ (fun a b => f a = some b) l l'
  | [], l', h => by
      simp only [traverseOption, Option.some.injEq] at h
      subst h; exact .nil
  | a :: l, l', h => by
      simp only [traverseOption] at h
      cases hfa : f a with
      | none => rw [hfa] at h; exact absurd h (by simp)
      | some b =>
        cases ht : traverseOption f l with
        | none => rw [hfa, ht] at h; exact absurd h (by simp)
        | some bs =>
          rw [hfa, ht] at h
          simp only [Option.some.injEq] at h
          subst h
          exact .cons hfa (traverseOption_forall₂ ht)

theorem mem_traverseOption {α β : Type} {f : α → Option β} :
    ∀ {l : List α} {l' : List β}, traverseOption f l = some l' →
      ∀ b : β, b ∈ l' ↔ ∃ a ∈ l, f a = some b
  | [], l', h => by
      simp only [traverseOption, Option.some.injEq] at h
      subst h; simp
  | a :: l, l', h => by
      simp only [traverseOption] at h
      cases hfa : f a with
      | none => rw [hfa] at h; exact absurd h (by simp)
      | some b =>
        cases ht : traverseOption f l with
        | none => rw [hfa, ht] at h; exact absurd h (by simp)
        | some bs =>
          rw [hfa, ht] at h
          simp only [Option.some.injEq] at h
          subst h
          intro c
          simp only [List.mem_cons, List.mem_cons]
          constructor
          · rintro (rfl | hc)
            · exact ⟨a, Or.inl rfl, hfa⟩
            · obtain ⟨x, hx, hfx⟩ := (mem_traverseOption ht c).mp hc
              exact ⟨x, Or.inr hx, hfx⟩
          · rintro ⟨x, (rfl | hx), hfx⟩
            · rw [hfa] at hfx
              exact Or.inl (Option.some.inj hfx).symm
            · exact Or.inr ((mem_traverseOption ht c).mpr ⟨x, hx, hfx⟩)

theorem traverseOption_convertTimeRow_eq_map :
    ∀ {df : Frame}, allTimesParse df → traverseOption convertTimeRow df = some (df.map convD)
  | [], _ => rfl
  | r :: l, h => by
      have hr : (toDatetime r.time).isSome := h r (List.mem_cons_self r l)
      obtain ⟨t, ht⟩ := Option.isSome_iff_exists.mp hr
      have hl : allTimesParse l := fun x hx => h x (List.mem_cons_of_mem r hx)
      have hrest := traverseOption_convertTimeRow_eq_map hl
      simp only [traverseOption, convertTimeRow, ht, Option.map_some', hrest, List.map_cons]
      simp [convD, ht]

theorem convertTimeRow_eq_some {r c : QuakeRow} (h : convertTimeRow r = some c) :
    ∃ t, toDatetime r.time = some t ∧ c = { r with time := .stamp t } := by
  unfold convertTimeRow at h
  cases ht : toDatetime r.time with
  | none => rw [ht] at h; exact absurd h (by simp)
  | some t =>
      rw [ht] at h
      simp only [Option.map_some', Option.some.injEq] at h
      exact ⟨t, rfl, h.symm⟩

theorem optFilter_sublist (o : Option (ℚ × ℚ)) (p : ℚ → ℚ → QuakeRow → Bool) (l : Frame) :
    (optFilter o p l).Sublist l := by
  cases o with
  | none => exact List.Sublist.refl l
  | some b =>
      obtain ⟨a, b⟩ := b
      exact List.filter_sublist l

theorem mem_optFilter (o : Option (ℚ × ℚ)) (sel : QuakeRow → ℚ) (l : Frame) (x : QuakeRow) :
    x ∈ optFilter o (fieldPred sel) l ↔ x ∈ l ∧ optCheck o (sel x) = true := by
  cases o with
  | none => simp [optFilter, optCheck]
  | some b =>
      obtain ⟨a, b⟩ := b
      simp [optFilter, optCheck, fieldPred, List.mem_filter]

/-! ### C3: identity law -/

/-- C3 (confirmed): with none of the five optional range arguments supplied,
`select_quake_subset` returns its input table unchanged. -/
theorem quake_C3 (df : Frame) :
    select_quake_subset df none none none none none = some df := rfl

/-! ### C5, C6, C10: the slope calculation -/

/-- C5 (confirmed): `get_slope` fails, with the named `ValueError` domain
condition, exactly when the two points share the same first coordinate
(`run = 0`, which includes the case of equal points); for every other pair it
returns a value. -/
theorem slope_C5 (p q : ℚ × ℚ) :
    (get_slope p q = .error (.valueError
       "Division by zero: The x-coordinates of the start and end points cannot be the same.")
      ↔ p.1 = q.1) ∧
    ((∃ v, get_slope p q = .ok v) ↔ p.1 ≠ q.1) := by
  rcases eq_or_ne p.1 q.1 with h | h
  · have hrun : q.1 - p.1 = 0 := by rw [h, sub_self]
    constructor
    · simp [get_slope, hrun, h]
    · simp [get_slope, hrun, h]
  · have hrun : q.1 - p.1 ≠ 0 := sub_ne_zero_of_ne (Ne.symm h)
    constructor
    · simp [get_slope, hrun, h]
    · simp only [get_slope, if_neg hrun]
      exact ⟨fun _ => h, fun _ => ⟨_, rfl⟩⟩

/-- C10 (confirmed): for points with distinct first coordinates the slope
angle is symmetric in its two arguments, so the result does not distinguish
the direction of travel. -/
theorem slope_C10 (p q : ℚ × ℚ) (h : p.1 ≠ q.1) : get_slope p q = get_slope q p := by
  have h1 : q.1 - p.1 ≠ 0 := sub_ne_zero_of_ne (Ne.symm h)
  have h2 : p.1 - q.1 ≠ 0 := sub_ne_zero_of_ne h
  have harg : ((q.2 - p.2) / (q.1 - p.1) : ℚ) = ((p.2 - q.2) / (p.1 - q.1) : ℚ) := by
    field_simp
    ring
  simp only [get_slope, if_neg h1, if_neg h2, harg]

/-- C6 (confirmed): for every pair of points with distinct first coordinates,
`get_slope` returns `arctan (rise / run)` converted from radians to degrees,
a value strictly between -90 and +90; in particular 45.0 for ((0,0),(1,1)),
-45.0 for ((0,0),(1,-1)) and 0.0 for ((0,0),(1,0)). -/
theorem slope_C6 :
    (∀ p q : ℚ × ℚ, p.1 ≠ q.1 →
      get_slope p q = .ok (Real.arctan (((q.2 - p.2) / (q.1 - p.1) : ℚ) : ℝ) * 180 / Real.pi) ∧
      ∀ v : ℝ, get_slope p q = .ok v → -90 < v ∧ v < 90) ∧
    get_slope ((0 : ℚ), (0 : ℚ)) ((1 : ℚ), (1 : ℚ)) = .ok 45 ∧
    get_slope ((0 : ℚ), (0 : ℚ)) ((1 : ℚ), (-1 : ℚ)) = .ok (-45) ∧
    get_slope ((0 : ℚ), (0 : ℚ)) ((1 : ℚ), (0 : ℚ)) = .ok 0 := by
  have hpi := Real.pi_pos
  have hgen : ∀ p q : ℚ × ℚ, p.1 ≠ q.1 →
      get_slope p q = .ok (Real.arctan (((q.2 - p.2) / (q.1 - p.1) : ℚ) : ℝ) * 180 / Real.pi) ∧
      ∀ v : ℝ, get_slope p q = .ok v → -90 < v ∧ v < 90 := by
    intro p q h
    have hrun : q.1 - p.1 ≠ 0 := sub_ne_zero_of_ne (Ne.symm h)
    constructor
    · simp [get_slope, hrun]
    · intro v hv
      simp only [get_slope, if_neg hrun, Except.ok.injEq] at hv
      subst hv
      have h1 : Real.arctan (((q.2 - p.2) / (q.1 - p.1) : ℚ) : ℝ) < Real.pi / 2 :=
        Real.arctan_lt_pi_div_two _
      have h2 : -(Real.pi / 2) < Real.arctan (((q.2 - p.2) / (q.1 - p.1) : ℚ) : ℝ) :=
        Real.neg_pi_div_two_lt_arctan _
      constructor
      · rw [lt_div_iff₀ hpi]
        linarith
      · rw [div_lt_iff₀ hpi]
        linarith
  have hpine := Real.pi_ne_zero
  have hval1 : Real.pi / 4 * 180 / Real.pi = 45 := by
    field_simp
    ring
  have hc1 : get_slope ((0 : ℚ), (0 : ℚ)) ((1 : ℚ), (1 : ℚ)) = .ok 45 := by
    have h45 := (hgen ((0 : ℚ), (0 : ℚ)) ((1 : ℚ), (1 : ℚ)) (by norm_num)).1
    rw [h45]
    norm_num [Real.arctan_one, hval1]
  have hc2 : get_slope ((0 : ℚ), (0 : ℚ)) ((1 : ℚ), (-1 : ℚ)) = .ok (-45) := by
    have hm45 := (hgen ((0 : ℚ), (0 : ℚ)) ((1 : ℚ), (-1 : ℚ)) (by norm_num)).1
    rw [hm45]
    have harg : ((((1 : ℚ), (-1 : ℚ)).2 - ((0 : ℚ), (0 : ℚ)).2) /
        (((1 : ℚ), (-1 : ℚ)).1 - ((0 : ℚ), (0 : ℚ)).1) : ℚ) = -1 := by norm_num
    rw [harg]
    push_cast
    rw [Real.arctan_neg, Real.arctan_one]
    norm_num
    field_simp
    ring
  have hc3 : get_slope ((0 : ℚ), (0 : ℚ)) ((1 : ℚ), (0 : ℚ)) = .ok 0 := by
    have h0 := (hgen ((0 : ℚ), (0 : ℚ)) ((1 : ℚ), (0 : ℚ)) (by norm_num)).1
    rw [h0]
    norm_num [Real.arctan_zero]
  exact ⟨hgen, hc1, hc2, hc3⟩

/-- Closed witness for C6 at the concrete pair ((0,0), (1,3)). -/
theorem slope_C6_w : get_slope ((0 : ℚ), (0 : ℚ)) ((1 : ℚ), (3 : ℚ)) =
    .ok (Real.arctan ((((3 : ℚ) - 0) / ((1 : ℚ) - 0) : ℚ) : ℝ) * 180 / Real.pi) :=
  (slope_C6.1 ((0 : ℚ), (0 : ℚ)) ((1 : ℚ), (3 : ℚ)) (by norm_num)).1

/-- Closed witness for C10 at the concrete pair ((0,0), (1,2)). -/
theorem slope_C10_w : get_slope ((0 : ℚ), (0 : ℚ)) ((1 : ℚ), (2 : ℚ)) =
    get_slope ((1 : ℚ), (2 : ℚ)) ((0 : ℚ), (0 : ℚ)) :=
  slope_C10 ((0 : ℚ), (0 : ℚ)) ((1 : ℚ), (2 : ℚ)) (by norm_num)

/-! ### C7: plate-boundary grouping -/

theorem uniqueAux_mem : ∀ {seen l : List String} {x : String},
    x ∈ uniqueAux seen l ↔ x ∈ l ∧ x ∉ seen := by
  intro seen l
  induction l generalizing seen with
  | nil => intro x; simp [uniqueAux]
  | cons n rest ih =>
    intro x
    by_cases hn : n ∈ seen
    · rw [uniqueAux, if_pos hn, ih]
      simp only [List.mem_cons]
      constructor
      · rintro ⟨hx, hs⟩
        exact ⟨Or.inr hx, hs⟩
      · rintro ⟨(rfl | hx), hs⟩
        · exact absurd hn hs
        · exact ⟨hx, hs⟩
    · rw [uniqueAux, if_neg hn]
      simp only [List.mem_cons, ih]
      constructor
      · rintro (rfl | ⟨hr, hs⟩)
        · exact ⟨Or.inl rfl, hn⟩
        · have hxs : x ∉ seen := fun hmem => hs (Or.inr hmem)
          exact ⟨Or.inr hr, hxs⟩
      · rintro ⟨(rfl | hr), hs⟩
        · exact Or.inl rfl
        · by_cases hx : x = n
          · exact Or.inl hx
          · refine Or.inr ⟨hr, fun hmem => ?_⟩
            rcases hmem with h | h
            · exact hx h
            · exact hs h

theorem uniqueAux_nodup : ∀ (seen l : List String), (uniqueAux seen l).Nodup := by
  intro seen l
  induction l generalizing seen with
  | nil => simp [uniqueAux]
  | cons n rest ih =>
    by_cases hn : n ∈ seen
    · rw [uniqueAux, if_pos hn]
      exact ih seen
    · rw [uniqueAux, if_neg hn]
      refine List.nodup_cons.mpr ⟨fun hmem => ?_, ih (n :: seen)⟩
      exact (uniqueAux_mem.mp hmem).2 (List.mem_cons_self n seen)

theorem length_filter_add_length_filter_not {α : Type} (p : α → Bool) (l : List α) :
    (l.filter p).length + (l.filter fun a => !p a).length = l.length := by
  induction l with
  | nil => rfl
  | cons a l ih =>
    by_cases h : p a <;> simp [List.filter_cons, h] <;> omega

theorem sum_filter_lengths : ∀ (keys : List String) (rows : List PlateRow),
    keys.Nodup → (∀ r ∈ rows, r.name ∈ keys) →
    (keys.map fun n => (rows.filter fun r => decide (r.name = n)).length).sum = rows.length := by
  intro keys
  induction keys with
  | nil =>
    intro rows _ hall
    have : rows = [] := List.eq_nil_iff_forall_not_mem.mpr fun r hr => by
      simpa using hall r hr
    simp [this]
  | cons k ks ih =>
    intro rows hnd hall
    have hknotin : k ∉ ks := (List.nodup_cons.mp hnd).1
    have hndks : ks.Nodup := (List.nodup_cons.mp hnd).2
    have hswap : ∀ n ∈ ks, (rows.filter fun r => decide (r.name = n)) =
        ((rows.filter fun r => !decide (r.name = k)).filter fun r => decide (r.name = n)) := by
      intro n hn
      rw [List.filter_filter]
      apply List.filter_congr
      intro r _
      have hnk : ¬(n = k) := fun h => hknotin (h ▸ hn)
      by_cases hr : r.name = n
      · simp [hr, hnk]
      · simp [hr]
    have hmapeq : (ks.map fun n => (rows.filter fun r => decide (r.name = n)).length) =
        (ks.map fun n => (((rows.filter fun r => !decide (r.name = k)).filter
          fun r => decide (r.name = n))).length) :=
      List.map_congr_left fun n hn => by rw [hswap n hn]
    have hallrec : ∀ r ∈ (rows.filter fun r => !decide (r.name = k)), r.name ∈ ks := by
      intro r hr
      rw [List.mem_filter] at hr
      have := hall r hr.1
      rcases List.mem_cons.mp this with h | h
      · exfalso
        have := hr.2
        simp [h] at this
      · exact h
    simp only [List.map_cons, List.sum_cons, hmapeq]
    rw [ih _ hndks hallrec]
    exact length_filter_add_length_filter_not (fun r => decide (r.name = k)) rows

/-- C7 (confirmed): `get_plate_boundaries` partitions the file's rows: the
per-plate lengths sum to the row count, each plate key maps exactly to the
file-order sub-sequence of its rows with the on-disk (lat, lon) pair swapped
to (lon, lat), the keys are pairwise distinct, and every row's name occurs
among the keys. -/
theorem plate_C7 (rows : List PlateRow) :
    ((get_plate_boundaries rows).map fun p => p.2.length).sum = rows.length ∧
    (∀ p ∈ get_plate_boundaries rows,
      p.2 = (rows.filter fun r => decide (r.name = p.1)).map fun r => (r.lon, r.lat)) ∧
    ((get_plate_boundaries rows).map Prod.fst).Nodup ∧
    (∀ r ∈ rows, r.name ∈ (get_plate_boundaries rows).map Prod.fst) := by
  have hfst : (get_plate_boundaries rows).map Prod.fst = uniqueAux [] (rows.map (·.name)) := by
    unfold get_plate_boundaries
    rw [List.map_map]
    exact List.map_id' _
  have hallkeys : ∀ r ∈ rows, r.name ∈ uniqueAux [] (rows.map (·.name)) := by
    intro r hr
    rw [uniqueAux_mem]
    exact ⟨List.mem_map.mpr ⟨r, hr, rfl⟩, by simp⟩
  refine ⟨?_, ?_, ?_, ?_⟩
  · unfold get_plate_boundaries
    rw [List.map_map]
    have : ((fun p : String × List (ℚ × ℚ) => p.2.length) ∘ fun n =>
        (n, (rows.filter fun r => decide (r.name = n)).map fun r => (r.lon, r.lat))) =
        fun n => (rows.filter fun r => decide (r.name = n)).length := by
      funext n
      simp
    rw [this]
    exact sum_filter_lengths _ rows (uniqueAux_nodup _ _) hallkeys
  · intro p hp
    unfold get_plate_boundaries at hp
    rcases List.mem_map.mp hp with ⟨n, _, rfl⟩
    rfl
  · rw [hfst]
    exact uniqueAux_nodup _ _
  · intro r hr
    rw [hfst]
    exact hallkeys r hr

/-- Closed witness for C7 on a file whose "A" rows are non-contiguous. -/
theorem plate_C7_w :
    ((get_plate_boundaries exPlates).map fun p => p.2.length).sum = exPlates.length ∧
    ([((2 : ℚ), (1 : ℚ)), ((6 : ℚ), (5 : ℚ))] : List (ℚ × ℚ)) =
      (exPlates.filter fun r => decide (r.name = "A")).map fun r => (r.lon, r.lat) :=
  ⟨(plate_C7 exPlates).1,
   (plate_C7 exPlates).2.1 ("A", [((2 : ℚ), (1 : ℚ)), ((6 : ℚ), (5 : ℚ))]) (by decide)⟩

/-! ### C8: field extraction with mixed time formats -/

/-- C8 (confirmed): `parse_earthquakes_to_np` returns five parallel
sequences of the table's length in source row order, and on a table mixing
`2000-10-31T01:30:00.000-05:00` with `2001-01-01T00:00:00` it yields two
valid, distinct instants without failing, the first instant from the first
string. -/
theorem quake_C8 :
    (∀ (df : Frame) (la lo de ma ti : List ℚ),
      parse_earthquakes_to_np df = some (la, lo, de, ma, ti) →
      la.length = df.length ∧ lo.length = df.length ∧ de.length = df.length ∧
      ma.length = df.length ∧ ti.length = df.length ∧
      la = df.map (·.latitude) ∧ lo = df.map (·.longitude) ∧
      de = df.map (·.depth) ∧ ma = df.map (·.magnitude) ∧
      ∀ (i : ℕ) (h1 : i < df.length) (h2 : i < ti.length),
        toDatetime (df.get ⟨i, h1⟩).time = some (ti.get ⟨i, h2⟩)) ∧
    parse_earthquakes_to_np exMixed =
      some ([10, 20], [30, 40], [50, 60], [3, 4], [972973800, 978307200]) ∧
    (972973800 : ℚ) ≠ 978307200 := by
  refine ⟨?_, by rfl, by norm_num⟩
  intro df la lo de ma ti h
  unfold parse_earthquakes_to_np at h
  cases ht : traverseOption (fun r => toDatetime r.time) df with
  | none => rw [ht] at h; exact absurd h (by simp)
  | some times =>
    rw [ht] at h
    simp only [Option.some.injEq, Prod.mk.injEq] at h
    obtain ⟨hla, hlo, hde, hma, hti⟩ := h
    subst hla hlo hde hma hti
    have hf := traverseOption_forall₂ ht
    have hlen := hf.length_eq
    refine ⟨by simp, by simp, by simp, by simp, hlen.symm, rfl, rfl, rfl, rfl, ?_⟩
    intro i h1 h2
    exact (List.forall₂_iff_get.mp hf).2 i h1 h2

/-- Closed witness for C8 at the two-row mixed-format table. -/
theorem quake_C8_w : ([(10 : ℚ), 20]).length = exMixed.length :=
  (quake_C8.1 exMixed [10, 20] [30, 40] [50, 60] [3, 4] [972973800, 978307200] (by rfl)).1

/-! ### C1: the filtered subset's cells against the source's -/

/-- C1 counterexample: with a `times` argument supplied, the surviving row's
`Time` cell is rewritten to the parsed timestamp, so the output is not a
sub-sequence of the source's rows with cells unchanged. -/
theorem quake_C1_cex :
    select_quake_subset exDfT (some (.stamp 0, .stamp 1000000000)) none none none none =
      some [exRowConv] ∧ ¬ ([exRowConv].Sublist exDfT) := by
  constructor
  · rfl
  · rw [List.singleton_sublist]
    decide

/-- C1 as amended: the output is a sub-sequence (order preserved, cells
unchanged) of the source table when `times` is not supplied, and of the
source table with its `Time` column converted to parsed instants when it is;
the conversion changes no cell other than `Time`, which it replaces by the
cell's parsed instant. -/
theorem quake_C1 (df : Frame) (times : Option (TimeCell × TimeCell))
    (lons lats depths mags : Option (ℚ × ℚ)) (out : Frame)
    (h : select_quake_subset df times lons lats depths mags = some out) :
    (times = none → out.Sublist df) ∧
    (∀ t0 t1, times = some (t0, t1) →
      ∃ conv, traverseOption convertTimeRow df = some conv ∧ out.Sublist conv) ∧
    (∀ r c, convertTimeRow r = some c →
      c.latitude = r.latitude ∧ c.longitude = r.longitude ∧ c.depth = r.depth ∧
      c.magnitude = r.magnitude ∧ c.extra = r.extra ∧
      ∃ t, toDatetime r.time = some t ∧ c.time = .stamp t) := by
  unfold select_quake_subset at h
  cases hts : timeStep df times with
  | none => rw [hts] at h; exact absurd h (by simp)
  | some df1 =>
    rw [hts] at h
    simp only [Option.some.injEq] at h
    have hout : out.Sublist df1 := by
      rw [← h]
      exact (((optFilter_sublist mags magPred _).trans
        (optFilter_sublist depths depthPred _)).trans
          (optFilter_sublist lats latPred _)).trans (optFilter_sublist lons lonPred df1)
    refine ⟨?_, ?_, ?_⟩
    · rintro rfl
      simp only [timeStep, Option.some.injEq] at hts
      rw [← hts] at hout
      exact hout
    · rintro t0 t1 rfl
      simp only [timeStep] at hts
      cases htr : traverseOption convertTimeRow df with
      | none => rw [htr] at hts; exact absurd hts (by simp)
      | some conv =>
        rw [htr] at hts
        cases h0 : toDatetime t0 with
        | none => rw [h0] at hts; exact absurd hts (by simp)
        | some a =>
          cases h1 : toDatetime t1 with
          | none => rw [h0, h1] at hts; exact absurd hts (by simp)
          | some b =>
            rw [h0, h1] at hts
            simp only [Option.some.injEq] at hts
            refine ⟨conv, rfl, ?_⟩
            rw [← hts] at hout
            exact hout.trans (List.filter_sublist conv)
    · intro r c hc
      obtain ⟨t, ht, rfl⟩ := convertTimeRow_eq_some hc
      exact ⟨rfl, rfl, rfl, rfl, rfl, t, ht, rfl⟩

/-- Closed witness for C1 at a one-row table with a magnitude range. -/
theorem quake_C1_w : ([exRowRaw] : Frame).Sublist exDfT :=
  (quake_C1 exDfT none none none none (some (3, 5)) [exRowRaw] rfl).1 rfl

/-! ### C2: membership characterisation of the filter -/

/-- Membership in the four numeric narrowing steps is exactly the
conjunction of the supplied inclusive range checks. -/
theorem mem_numericChain (lons lats depths mags : Option (ℚ × ℚ)) (l : Frame) (x : QuakeRow) :
    x ∈ optFilter mags magPred (optFilter depths depthPred
      (optFilter lats latPred (optFilter lons lonPred l))) ↔
    x ∈ l ∧ optCheck lons x.longitude = true ∧ optCheck lats x.latitude = true ∧
      optCheck depths x.depth = true ∧ optCheck mags x.magnitude = true := by
  simp only [lonPred, latPred, depthPred, magPred]
  rw [mem_optFilter, mem_optFilter, mem_optFilter, mem_optFilter]
  tauto

/-- The spec-side predicate on a source row, restated through the row's
converted image. -/
theorem rowSatSpec_image {t0 t1 : TimeCell} {a b : ℚ} (h0 : toDatetime t0 = some a)
    (h1 : toDatetime t1 = some b) {r x : QuakeRow} (hrx : convertTimeRow r = some x)
    (lons lats depths mags : Option (ℚ × ℚ)) :
    rowSatSpec (some (t0, t1)) lons lats depths mags r =
      (timeInRange a b x && (optCheck lons x.longitude && (optCheck lats x.latitude &&
        (optCheck depths x.depth && optCheck mags x.magnitude)))) := by
  obtain ⟨t, ht, rfl⟩ := convertTimeRow_eq_some hrx
  simp only [rowSatSpec, optTimeCheck, h0, h1, ht, timeInRange]
  simp [Bool.and_assoc]

/-- C2 as amended: a row of the input survives — appearing as its image
under the `Time` conversion when `times` is supplied, unchanged otherwise —
if and only if it satisfies every supplied inclusive range (the spec-side
conjunctive predicate `rowSatSpec`); in particular with a `mags` range every
output row's magnitude lies inclusively inside it. -/
theorem quake_C2 (df : Frame) (times : Option (TimeCell × TimeCell))
    (lons lats depths mags : Option (ℚ × ℚ)) (out : Frame)
    (h : select_quake_subset df times lons lats depths mags = some out) :
    (∀ x, x ∈ out ↔ ∃ r, r ∈ df ∧ rowImage times r = some x ∧
      rowSatSpec times lons lats depths mags r = true) ∧
    (∀ m0 m1, mags = some (m0, m1) → ∀ x ∈ out, m0 ≤ x.magnitude ∧ x.magnitude ≤ m1) := by
  unfold select_quake_subset at h
  cases hts : timeStep df times with
  | none => rw [hts] at h; exact absurd h (by simp)
  | some df1 =>
    rw [hts] at h
    simp only [Option.some.injEq] at h
    have hmem : ∀ x, x ∈ out ↔ x ∈ df1 ∧ optCheck lons x.longitude = true ∧
        optCheck lats x.latitude = true ∧ optCheck depths x.depth = true ∧
        optCheck mags x.magnitude = true := by
      intro x
      rw [← h]
      exact mem_numericChain lons lats depths mags df1 x
    constructor
    · intro x
      cases times with
      | none =>
        simp only [timeStep, Option.some.injEq] at hts
        subst hts
        rw [hmem]
        constructor
        · rintro ⟨hx, h1, h2, h3, h4⟩
          refine ⟨x, hx, rfl, ?_⟩
          simp [rowSatSpec, optTimeCheck, h1, h2, h3, h4]
        · rintro ⟨r, hr, hrx, hsat⟩
          simp only [rowImage, Option.some.injEq] at hrx
          subst hrx
          simp only [rowSatSpec, optTimeCheck, Bool.true_and, Bool.and_eq_true] at hsat
          exact ⟨hr, hsat.1.1.1, hsat.1.1.2, hsat.1.2, hsat.2⟩
      | some tt =>
        obtain ⟨t0, t1⟩ := tt
        simp only [timeStep] at hts
        cases htr : traverseOption convertTimeRow df with
        | none => rw [htr] at hts; exact absurd hts (by simp)
        | some conv =>
          rw [htr] at hts
          cases h0 : toDatetime t0 with
          | none => rw [h0] at hts; exact absurd hts (by simp)
          | some a =>
            cases h1 : toDatetime t1 with
            | none => rw [h0, h1] at hts; exact absurd hts (by simp)
            | some b =>
              rw [h0, h1] at hts
              simp only [Option.some.injEq] at hts
              subst hts
              rw [hmem]
              rw [List.mem_filter]
              constructor
              · rintro ⟨⟨hconv, htime⟩, hlon, hlat, hdep, hmag⟩
                obtain ⟨r, hr, hcr⟩ := (mem_traverseOption htr x).mp hconv
                refine ⟨r, hr, hcr, ?_⟩
                rw [rowSatSpec_image h0 h1 hcr]
                simp [htime, hlon, hlat, hdep, hmag]
              · rintro ⟨r, hr, hrx, hsat⟩
                simp only [rowImage] at hrx
                rw [rowSatSpec_image h0 h1 hrx] at hsat
                simp only [Bool.and_eq_true] at hsat
                obtain ⟨ht, hlon, hlat, hdep, hmag⟩ := hsat
                exact ⟨⟨(mem_traverseOption htr x).mpr ⟨r, hr, hrx⟩, ht⟩, hlon, hlat, hdep, hmag⟩
    · rintro m0 m1 rfl x hx
      have hc := ((hmem x).mp hx).2.2.2.2
      simp only [optCheck, decide_eq_true_eq] at hc
      exact hc

/-- C2 counterexample: with `times` supplied, a row that satisfies every
supplied range does not itself appear in the output (only its converted
image does), refuting the literal membership claim. -/
theorem quake_C2_cex :
    select_quake_subset exDfT (some (.stamp 0, .stamp 1000000000)) none none none none =
      some [exRowConv] ∧
    rowSatSpec (some (.stamp 0, .stamp 1000000000)) none none none none exRowRaw = true ∧
    exRowRaw ∈ exDfT ∧ exRowRaw ∉ [exRowConv] := by
  refine ⟨rfl, by decide, by decide, by decide⟩

/-- Closed witness for C2's magnitude clause at a one-row table. -/
theorem quake_C2_w : (3 : ℚ) ≤ exRowRaw.magnitude ∧ exRowRaw.magnitude ≤ 5 :=
  (quake_C2 exDfT none none none none (some (3, 5)) [exRowRaw] rfl).2 3 5 rfl exRowRaw
    (List.mem_singleton.mpr rfl)

/-! ### C4: commutation of the range predicates -/

theorem applyOne_nonTimes (a : RangeArg) (h : a.isTimes = false) (df : Frame) :
    applyOne a df = some (df.filter (predOf a)) := by
  cases a with
  | times b => simp [RangeArg.isTimes] at h
  | lons b => rfl
  | lats b => rfl
  | depths b => rfl
  | mags b => rfl

theorem predOf_convD (a : RangeArg) (r : QuakeRow) : predOf a (convD r) = predOf a r := by
  cases a <;> rfl

theorem filter_swapQ (p q : QuakeRow → Bool) (l : Frame) :
    (l.filter p).filter q = (l.filter q).filter p := by
  rw [List.filter_filter, List.filter_filter]
  exact List.filter_congr fun x _ => Bool.and_comm (q x) (p x)

theorem map_convD_filter (p : QuakeRow → Bool) (hp : ∀ r, p (convD r) = p r) (l : Frame) :
    (l.filter p).map convD = (l.map convD).filter p := by
  rw [List.filter_map]
  congr 1
  exact (List.filter_congr fun x _ => hp x).symm

theorem allTimesParse_filter {l : Frame} (h : allTimesParse l) (p : QuakeRow → Bool) :
    allTimesParse (l.filter p) :=
  fun r hr => h r (List.mem_filter.mp hr).1

theorem stamped_map_convD (l : Frame) : ∀ r ∈ l.map convD, ∃ t, r.time = .stamp t := by
  intro r hr
  obtain ⟨s, _, rfl⟩ := List.mem_map.mp hr
  exact ⟨_, rfl⟩

theorem stamped_filter {l : Frame} (h : ∀ r ∈ l, ∃ t, r.time = .stamp t) (p : QuakeRow → Bool) :
    ∀ r ∈ l.filter p, ∃ t, r.time = .stamp t :=
  fun r hr => h r (List.mem_filter.mp hr).1

theorem allTimesParse_of_stamped {l : Frame} (h : ∀ r ∈ l, ∃ t, r.time = .stamp t) :
    allTimesParse l := by
  intro r hr
  obtain ⟨t, ht⟩ := h r hr
  simp [toDatetime, ht]

theorem map_convD_id {l : Frame} (h : ∀ r ∈ l, ∃ t, r.time = .stamp t) : l.map convD = l := by
  have heq : l.map convD = l.map id := by
    apply List.map_congr_left
    intro r hr
    obtain ⟨t, ht⟩ := h r hr
    cases r
    simp only [convD, toDatetime] at *
    simp_all
  rw [heq, List.map_id]

theorem applyOne_times_fail {t0 t1 : TimeCell}
    (h : toDatetime t0 = none ∨ toDatetime t1 = none) (df : Frame) :
    applyOne (.times (t0, t1)) df = none := by
  show select_quake_subset df (some (t0, t1)) none none none none = none
  unfold select_quake_subset
  cases hts : timeStep df (some (t0, t1)) with
  | none => rfl
  | some df1 =>
    exfalso
    simp only [timeStep] at hts
    cases htr : traverseOption convertTimeRow df with
    | none => rw [htr] at hts; simp at hts
    | some conv =>
      rw [htr] at hts
      rcases h with h0 | h1
      · rw [h0] at hts
        simp at hts
      · rw [h1] at hts
        cases toDatetime t0 <;> simp at hts

theorem applyOne_times_ok {t0 t1 : TimeCell} {a b : ℚ} (h0 : toDatetime t0 = some a)
    (h1 : toDatetime t1 = some b) {df : Frame} (h : allTimesParse df) :
    applyOne (.times (t0, t1)) df = some ((df.map convD).filter (timeInRange a b)) := by
  show select_quake_subset df (some (t0, t1)) none none none none = _
  unfold select_quake_subset
  have hts : timeStep df (some (t0, t1)) = some ((df.map convD).filter (timeInRange a b)) := by
    simp only [timeStep, traverseOption_convertTimeRow_eq_map h, h0, h1]
  rw [hts]
  rfl

/-- C4 as amended: two single-range calls of `select_quake_subset` commute
on every table whose `Time` cells all parse, and unconditionally when
neither range is `times`. -/
theorem quake_C4 :
    (∀ (df : Frame) (a b : RangeArg), allTimesParse df →
      (applyOne a df).bind (applyOne b) = (applyOne b df).bind (applyOne a)) ∧
    (∀ (df : Frame) (a b : RangeArg), a.isTimes = false → b.isTimes = false →
      (applyOne a df).bind (applyOne b) = (applyOne b df).bind (applyOne a)) := by
  have hnn : ∀ (df : Frame) (a b : RangeArg), a.isTimes = false → b.isTimes = false →
      (applyOne a df).bind (applyOne b) = (applyOne b df).bind (applyOne a) := by
    intro df a b ha hb
    rw [applyOne_nonTimes a ha df, applyOne_nonTimes b hb df]
    simp only [Option.some_bind]
    rw [applyOne_nonTimes b hb _, applyOne_nonTimes a ha _, filter_swapQ]
  have htn : ∀ (df : Frame) (t0 t1 : TimeCell) (b : RangeArg), b.isTimes = false →
      allTimesParse df →
      (applyOne (.times (t0, t1)) df).bind (applyOne b) =
        (applyOne b df).bind (applyOne (.times (t0, t1))) := by
    intro df t0 t1 b hb hdf
    cases h0 : toDatetime t0 with
    | none =>
      rw [applyOne_times_fail (Or.inl h0) df, applyOne_nonTimes b hb df]
      simp only [Option.none_bind, Option.some_bind]
      rw [applyOne_times_fail (Or.inl h0) _]
    | some ta =>
      cases h1 : toDatetime t1 with
      | none =>
        rw [applyOne_times_fail (Or.inr h1) df, applyOne_nonTimes b hb df]
        simp only [Option.none_bind, Option.some_bind]
        rw [applyOne_times_fail (Or.inr h1) _]
      | some tb =>
        rw [applyOne_times_ok h0 h1 hdf, applyOne_nonTimes b hb df]
        simp only [Option.some_bind]
        rw [applyOne_nonTimes b hb _, applyOne_times_ok h0 h1 (allTimesParse_filter hdf _)]
        rw [map_convD_filter (predOf b) (predOf_convD b), filter_swapQ]
  have htt : ∀ (df : Frame) (t0 t1 u0 u1 : TimeCell), allTimesParse df →
      (applyOne (.times (t0, t1)) df).bind (applyOne (.times (u0, u1))) =
        (applyOne (.times (u0, u1)) df).bind (applyOne (.times (t0, t1))) := by
    have hone : ∀ (df : Frame) (t0 t1 u0 u1 : TimeCell) (ta tb : ℚ), allTimesParse df →
        toDatetime t0 = some ta → toDatetime t1 = some tb →
        (toDatetime u0 = none ∨ toDatetime u1 = none) →
        (applyOne (.times (t0, t1)) df).bind (applyOne (.times (u0, u1))) =
          (applyOne (.times (u0, u1)) df).bind (applyOne (.times (t0, t1))) := by
      intro df t0 t1 u0 u1 ta tb hdf h0 h1 hu
      rw [applyOne_times_ok h0 h1 hdf, applyOne_times_fail hu df]
      simp only [Option.some_bind, Option.none_bind]
      rw [applyOne_times_fail hu _]
    intro df t0 t1 u0 u1 hdf
    cases h0 : toDatetime t0 with
    | none =>
      cases hu0 : toDatetime u0 with
      | none =>
        rw [applyOne_times_fail (Or.inl h0) df, applyOne_times_fail (Or.inl hu0) df]
        rfl
      | some ua =>
        cases hu1 : toDatetime u1 with
        | none =>
          rw [applyOne_times_fail (Or.inl h0) df, applyOne_times_fail (Or.inr hu1) df]
          rfl
        | some ub =>
          exact (hone df u0 u1 t0 t1 ua ub hdf hu0 hu1 (Or.inl h0)).symm
    | some ta =>
      cases h1 : toDatetime t1 with
      | none =>
        cases hu0 : toDatetime u0 with
        | none =>
          rw [applyOne_times_fail (Or.inr h1) df, applyOne_times_fail (Or.inl hu0) df]
          rfl
        | some ua =>
          cases hu1 : toDatetime u1 with
          | none =>
            rw [applyOne_times_fail (Or.inr h1) df, applyOne_times_fail (Or.inr hu1) df]
            rfl
          | some ub =>
            exact (hone df u0 u1 t0 t1 ua ub hdf hu0 hu1 (Or.inr h1)).symm
      | some tb =>
        cases hu0 : toDatetime u0 with
        | none =>
          exact hone df t0 t1 u0 u1 ta tb hdf h0 h1 (Or.inl hu0)
        | some ua =>
          cases hu1 : toDatetime u1 with
          | none =>
            exact hone df t0 t1 u0 u1 ta tb hdf h0 h1 (Or.inr hu1)
          | some ub =>
            rw [applyOne_times_ok h0 h1 hdf, applyOne_times_ok hu0 hu1 hdf]
            simp only [Option.some_bind]
            have hstamp1 : ∀ r ∈ (df.map convD).filter (timeInRange ta tb), ∃ t, r.time = .stamp t :=
              stamped_filter (stamped_map_convD df) _
            have hstamp2 : ∀ r ∈ (df.map convD).filter (timeInRange ua ub), ∃ t, r.time = .stamp t :=
              stamped_filter (stamped_map_convD df) _
            rw [applyOne_times_ok hu0 hu1 (allTimesParse_of_stamped hstamp1),
                applyOne_times_ok h0 h1 (allTimesParse_of_stamped hstamp2)]
            rw [map_convD_id hstamp1, map_convD_id hstamp2, filter_swapQ]
  refine ⟨?_, hnn⟩
  intro df a b hdf
  cases a with
  | times t =>
    obtain ⟨t0, t1⟩ := t
    cases b with
    | times u =>
      obtain ⟨u0, u1⟩ := u
      exact htt df t0 t1 u0 u1 hdf
    | lons bb => exact htn df t0 t1 (.lons bb) rfl hdf
    | lats bb => exact htn df t0 t1 (.lats bb) rfl hdf
    | depths bb => exact htn df t0 t1 (.depths bb) rfl hdf
    | mags bb => exact htn df t0 t1 (.mags bb) rfl hdf
  | lons bb =>
    cases b with
    | times u =>
      obtain ⟨u0, u1⟩ := u
      exact (htn df u0 u1 (.lons bb) rfl hdf).symm
    | lons cc => exact hnn df _ _ rfl rfl
    | lats cc => exact hnn df _ _ rfl rfl
    | depths cc => exact hnn df _ _ rfl rfl
    | mags cc => exact hnn df _ _ rfl rfl
  | lats bb =>
    cases b with
    | times u =>
      obtain ⟨u0, u1⟩ := u
      exact (htn df u0 u1 (.lats bb) rfl hdf).symm
    | lons cc => exact hnn df _ _ rfl rfl
    | lats cc => exact hnn df _ _ rfl rfl
    | depths cc => exact hnn df _ _ rfl rfl
    | mags cc => exact hnn df _ _ rfl rfl
  | depths bb =>
    cases b with
    | times u =>
      obtain ⟨u0, u1⟩ := u
      exact (htn df u0 u1 (.depths bb) rfl hdf).symm
    | lons cc => exact hnn df _ _ rfl rfl
    | lats cc => exact hnn df _ _ rfl rfl
    | depths cc => exact hnn df _ _ rfl rfl
    | mags cc => exact hnn df _ _ rfl rfl
  | mags bb =>
    cases b with
    | times u =>
      obtain ⟨u0, u1⟩ := u
      exact (htn df u0 u1 (.mags bb) rfl hdf).symm
    | lons cc => exact hnn df _ _ rfl rfl
    | lats cc => exact hnn df _ _ rfl rfl
    | depths cc => exact hnn df _ _ rfl rfl
    | mags cc => exact hnn df _ _ rfl rfl

/-- C4 counterexample: on a table holding an unparseable `Time` string in a
row outside the longitude range, filtering by `lons` and then `times`
succeeds while `times` first fails, so the two orders disagree. -/
theorem quake_C4_cex :
    (applyOne (.lons (0, 20)) exDfBad).bind (applyOne (.times (.stamp 0, .stamp 1000000000))) ≠
    (applyOne (.times (.stamp 0, .stamp 1000000000)) exDfBad).bind (applyOne (.lons (0, 20))) := by
  decide

/-- Closed witness for C4 at a parseable one-row table. -/
theorem quake_C4_w :
    (applyOne (.lons (0, 20)) [exRowGood]).bind (applyOne (.mags (3, 5))) =
    (applyOne (.mags (3, 5)) [exRowGood]).bind (applyOne (.lons (0, 20))) :=
  quake_C4.1 [exRowGood] (.lons (0, 20)) (.mags (3, 5)) (by unfold allTimesParse; decide)

/-! ### C9: the filter does not mutate its input -/

/-- A narrowing step only appends to the heap, so it preserves every
existing cell, keeps indices in range, and the frame it leaves current is
never an older reference. -/
theorem filterStepH_inv (st : Heap) (r : Nat) (cur : Frame) (arg : Option (ℚ × ℚ))
    (p : ℚ → ℚ → QuakeRow → Bool) {i : Nat} (hi : i < st.length) (hr : r ≠ i) :
    ((filterStepH st r cur arg p).1)[i]? = st[i]? ∧
    i < (filterStepH st r cur arg p).1.length ∧
    (filterStepH st r cur arg p).2.1 ≠ i := by
  cases arg with
  | none => exact ⟨rfl, hi, hr⟩
  | some b =>
    obtain ⟨a, b⟩ := b
    refine ⟨List.getElem?_append_left hi, ?_, ?_⟩
    · simp only [filterStepH, List.length_append, List.length_cons, List.length_nil]
      omega
    · simp only [filterStepH]
      omega

/-- The four numeric narrowing steps preserve every heap cell allocated
before them and end on a reference distinct from any older one. -/
theorem numericStepsH_inv (st : Heap) (r : Nat) (cur : Frame)
    (lons lats depths mags : Option (ℚ × ℚ)) {i : Nat} (hi : i < st.length) (hr : r ≠ i) :
    ((numericStepsH st r cur lons lats depths mags).1)[i]? = st[i]? ∧
    (numericStepsH st r cur lons lats depths mags).2 ≠ i := by
  have h1 := filterStepH_inv st r cur lons lonPred hi hr
  rcases hs1 : filterStepH st r cur lons lonPred with ⟨stA, r1, cur1⟩
  rw [hs1] at h1
  have h2 := filterStepH_inv stA r1 cur1 lats latPred h1.2.1 h1.2.2
  rcases hs2 : filterStepH stA r1 cur1 lats latPred with ⟨stB, r2, cur2⟩
  rw [hs2] at h2
  have h3 := filterStepH_inv stB r2 cur2 depths depthPred h2.2.1 h2.2.2
  rcases hs3 : filterStepH stB r2 cur2 depths depthPred with ⟨stC, r3, cur3⟩
  rw [hs3] at h3
  have h4 := filterStepH_inv stC r3 cur3 mags magPred h3.2.1 h3.2.2
  rcases hs4 : filterStepH stC r3 cur3 mags magPred with ⟨stD, r4, cur4⟩
  rw [hs4] at h4
  simp only [numericStepsH, hs1, hs2, hs3, hs4]
  exact ⟨h4.1.trans (h3.1.trans (h2.1.trans h1.1)), h4.2.2⟩

/-- C9 (confirmed): after a successful heap-level run of
`select_quake_subset`, the argument frame is unchanged — the function only
writes to the copy it allocates — and the returned reference is a new frame,
not the source. -/
theorem quake_C9 (st : Heap) (dfRef : Nat) (times : Option (TimeCell × TimeCell))
    (lons lats depths mags : Option (ℚ × ℚ)) (st2 : Heap) (rOut : Nat)
    (h : select_quake_subset_heap st dfRef times lons lats depths mags = some (st2, rOut)) :
    st2[dfRef]? = st[dfRef]? ∧ rOut ≠ dfRef := by
  unfold select_quake_subset_heap at h
  split at h
  next => exact absurd h (by simp)
  next df hdf =>
    have hlt : dfRef < st.length := by
      rcases List.getElem?_eq_some_iff.mp hdf with ⟨hl, _⟩
      exact hl
    rw [hdf]
    split at h
    · simp only [Option.some.injEq] at h
      have hbase : dfRef < (st ++ [df]).length := by
        simp only [List.length_append, List.length_cons, List.length_nil]
        omega
      have hne : st.length ≠ dfRef := by omega
      have hinv := numericStepsH_inv (st ++ [df]) st.length df lons lats depths mags hbase hne
      rw [h] at hinv
      exact ⟨hinv.1.trans ((List.getElem?_append_left hlt).trans hdf), hinv.2⟩
    · split at h
      next conv tS tE htr h0 h1 =>
        simp only [Option.some.injEq] at h
        have hlen1 : ((st ++ [df]).set st.length conv).length = st.length + 1 := by
          simp [List.length_set, List.length_append]
        have hbase : dfRef < (((st ++ [df]).set st.length conv) ++
            [conv.filter (timeInRange tS tE)]).length := by
          simp only [List.length_append, hlen1, List.length_cons, List.length_nil]
          omega
        have hne : ((st ++ [df]).set st.length conv).length ≠ dfRef := by
          rw [hlen1]
          omega
        have hinv := numericStepsH_inv
          (((st ++ [df]).set st.length conv) ++ [conv.filter (timeInRange tS tE)])
          ((st ++ [df]).set st.length conv).length (conv.filter (timeInRange tS tE))
          lons lats depths mags hbase hne
        rw [h] at hinv
        have hdfa : dfRef < ((st ++ [df]).set st.length conv).length := by
          rw [hlen1]
          omega
        have hstep : (((st ++ [df]).set st.length conv) ++
            [conv.filter (timeInRange tS tE)])[dfRef]? = some df := by
          rw [List.getElem?_append_left hdfa]
          rw [List.getElem?_set_ne (by omega)]
          exact (List.getElem?_append_left hlt).trans hdf
        exact ⟨hinv.1.trans hstep, hinv.2⟩
      next => exact absurd h (by simp)

/-- Closed witness for C9 on a one-frame heap with a magnitude range. -/
theorem quake_C9_w :
    (([[exRowRaw], [exRowRaw], [exRowRaw]] : Heap))[0]? = ([[exRowRaw]] : Heap)[0]? ∧
    (2 : Nat) ≠ 0 :=
  quake_C9 [[exRowRaw]] 0 none none none none (some (3, 5)) [[exRowRaw], [exRowRaw], [exRowRaw]] 2
    (by rfl)

end EqFns
